import Mathlib

/-!
Verification of the mock and bridge filters of easegress
(src/pkg/filters/mock/mock.go and src/pkg/filters/bridge/bridge.go),
as a shallow embedding in Lean 4.

HTTP requests and responses are modelled by their observable parts: a
request header is an association list from header name to the list of
values (Go `map[string][]string`); a response carries a status code, a
single-valued header list and a body.  `urlrule.StringMatch` is external
to the excerpt and is modelled from the spec as an opaque match policy
(a predicate on strings) plus the `Empty` ("matches when absent") flag.
-/

namespace Easegress

/-- Request header: Go `http.Header`, a map from name to list of values,
modelled as an association list with unique keys (first binding wins). -/
abbrev Header := List (String × List String)

/-- Values of Go `http.Header.Values`: all values stored under `key`,
or the empty list when the key is absent. -/
def Header.Values (h : Header) (key : String) : List String :=
  match h.find? (fun kv => kv.1 == key) with
  | some kv => kv.2
  | none => []

/-- Get of Go `http.Header.Get`: the first value stored under `key`, or
the empty string when there is none. -/
def Header.Get (h : Header) (key : String) : String :=
  match Header.Values h key with
  | [] => ""
  | v :: _ => v

/-- Del of Go `http.Header.Del`: remove every binding of `key`. -/
def Header.Del (h : Header) (key : String) : Header :=
  h.filter (fun kv => kv.1 != key)

/-- Modelled from the spec: `urlrule.StringMatch` is external to the
excerpt (owned by the configuration subsystem).  Per the spec it is a
match policy over strings (exact/prefix/regex, opaque here) together
with an `Empty` flag meaning "matches when absent". -/
structure StringMatch where
  Empty : Bool
  policy : String → Bool

/-- Match of `urlrule.StringMatch`: whether `v` satisfies the policy. -/
def StringMatch.Match (sm : StringMatch) (v : String) : Bool :=
  sm.policy v

/-- MatchRule of mock.go: the criteria of one mock rule.  The Go
`Headers` map is modelled as an association list with unique keys. -/
structure MatchRule where
  Path : String
  PathPrefix : String
  Headers : List (String × StringMatch)
  MatchAllHeaders : Bool

/-- Rule of mock.go.  `Delay` is the configured textual duration,
`delay` the parsed `time.Duration` in nanoseconds. -/
structure Rule where
  Match : MatchRule
  Code : Int
  Headers : List (String × String)
  Body : String
  Delay : String
  delay : Int

/-- Go `strings.HasPrefix s p`: `p` is a prefix of `s`.  Modelled
character-wise, which agrees with Go's byte-wise test on valid UTF-8
strings (a byte prefix of a valid UTF-8 string that is itself valid
UTF-8 ends on a character boundary). -/
def hasPrefix (s p : String) : Bool :=
  p.data.isPrefixOf s.data

/-- matchPath closure of (*Mock).match, mock.go lines 137-151. -/
def matchPath (path : String) (rule : Rule) : Bool :=
  if rule.Match.Path == "" && rule.Match.PathPrefix == "" then true
  else if rule.Match.Path == path then true
  else if rule.Match.PathPrefix == "" then false
  else hasPrefix path rule.Match.PathPrefix

/-- matchOneHeader closure of (*Mock).match, mock.go lines 153-169. -/
def matchOneHeader (header : Header) (key : String) (rule : StringMatch) : Bool :=
  let values := Header.Values header key
  if values.length == 0 then rule.Empty
  else if rule.Empty then false
  else values.any (fun v => rule.Match v)

/-- Loop body of the matchHeader closure, mock.go lines 176-186: iterate
the configured header rules, short-circuiting to success on the first
satisfied rule when not `matchAll`, and to failure on the first
unsatisfied rule when `matchAll`; falling off the loop yields
`matchAll` (line 188). -/
def matchHeaderLoop (header : Header) (matchAll : Bool) : List (String × StringMatch) → Bool
  | [] => matchAll
  | kv :: rest =>
    if matchOneHeader header kv.1 kv.2 then
      if !matchAll then true else matchHeaderLoop header matchAll rest
    else
      if matchAll then false else matchHeaderLoop header matchAll rest

/-- matchHeader closure of (*Mock).match, mock.go lines 171-189. -/
def matchHeader (header : Header) (rule : Rule) : Bool :=
  if rule.Match.Headers.length == 0 then true
  else matchHeaderLoop header rule.Match.MatchAllHeaders rule.Match.Headers

/-- Rule-selection loop of (*Mock).match, mock.go lines 191-197: return
the first rule passing both the path test and the header test. -/
def mockMatch (path : String) (header : Header) : List Rule → Option Rule
  | [] => none
  | rule :: rest =>
    if matchPath path rule && matchHeader header rule then some rule
    else mockMatch path header rest

/-- Response: the observable parts mutated by the filters — status
code, single-valued header list, body. -/
structure Response where
  statusCode : Option Int
  header : List (String × String)
  body : Option String
deriving DecidableEq

/-- Set of Go `http.Header.Set` on the response header: overwrite the
binding of `key` when present, append it otherwise. -/
def setRespHeader (h : List (String × String)) (key value : String) : List (String × String) :=
  if h.any (fun kv => kv.1 == key) then
    h.map (fun kv => if kv.1 == key then (key, value) else kv)
  else h ++ [(key, value)]

/-- Lookup on the response header: the value bound to `key`, if any. -/
def getRespHeader (h : List (String × String)) (key : String) : Option String :=
  match h.find? (fun kv => kv.1 == key) with
  | some kv => some kv.2
  | none => none

/-- Observable events of (*Mock).mock, in execution order: the three
response mutations, then (only when the parsed delay is positive) the
select-wait, recording which arm of the select fired first. -/
inductive MockStep where
  | setStatus (code : Int)
  | setHeader (key value : String)
  | setBody (body : String)
  | delayWait (cancelled : Bool)
deriving DecidableEq

/-- Mutation events of a rule: status, the configured headers in
iteration order, the body. -/
def mockMutationSteps (rule : Rule) : List MockStep :=
  MockStep.setStatus rule.Code ::
    (rule.Headers.map (fun kv => MockStep.setHeader kv.1 kv.2) ++
      [MockStep.setBody rule.Body])

/-- mock of (*Mock).mock, mock.go lines 200-219: set the status code,
set every configured header, replace the body; when the parsed delay is
positive, wait on a select between the request's done channel and a
timer (`cancelled` tells which fired first) — both arms of the select
leave the response untouched (the cancelled arm only logs).  Returns
the mutated response and the event trace. -/
def mockApply (rule : Rule) (resp : Response) (cancelled : Bool) : Response × List MockStep :=
  let resp1 : Response := { resp with statusCode := some rule.Code }
  let resp2 : Response :=
    { resp1 with header := rule.Headers.foldl (fun h kv => setRespHeader h kv.1 kv.2) resp1.header }
  let resp3 : Response := { resp2 with body := some rule.Body }
  if rule.delay ≤ 0 then (resp3, mockMutationSteps rule)
  else
    if cancelled then (resp3, mockMutationSteps rule ++ [MockStep.delayWait true])
    else (resp3, mockMutationSteps rule ++ [MockStep.delayWait false])

/-- Result constant of mock.go line 35. -/
def resultMocked : String := "mocked"

/-- Handle of (*Mock).Handle, mock.go lines 124-131: apply the first
matching rule and report "mocked", or leave the response alone and
report the empty outcome. -/
def mockHandle (rules : List Rule) (path : String) (header : Header)
    (resp : Response) (cancelled : Bool) : String × Response :=
  match mockMatch path header rules with
  | some rule => (resultMocked, (mockApply rule resp cancelled).1)
  | none => ("", resp)

/-- Go `time.ParseDuration` is external to the excerpt; it is kept
abstract as a partial parsing function `pd` (`none` = parse error).  The
Go call `r.delay, _ = time.ParseDuration(r.Delay)` assigns the zero
duration and discards the error when the text is invalid, which is
exactly `parseDelay`. -/
def parseDelay (pd : String → Option Int) (text : String) : Int :=
  match pd text with
  | some d => d
  | none => 0

/-- Per-rule body of (*Mock).reload, mock.go lines 115-120: a rule with
empty `Delay` is skipped, otherwise its text is parsed once.  The second
component records the texts handed to the parser. -/
def reloadRule (pd : String → Option Int) (r : Rule) : Rule × List String :=
  if r.Delay == "" then (r, [])
  else ({ r with delay := parseDelay pd r.Delay }, [r.Delay])

/-- reload of (*Mock).reload, mock.go lines 114-121, instrumented with
the list of texts handed to the duration parser, in order. -/
def mockReload (pd : String → Option Int) : List Rule → List Rule × List String
  | [] => ([], [])
  | r :: rest =>
    let p := reloadRule pd r
    let q := mockReload pd rest
    (p.1 :: q.1, p.2 ++ q.2)

/-- Request/response context as the bridge filter observes it: the
request header and the response status code. -/
structure Ctx where
  reqHeader : Header
  respStatus : Option Nat
deriving DecidableEq

/-- Handler registry (context.MuxMapper): maps a destination identifier
to a handler, a handler being its effect on the context. -/
abbrev Registry := List (String × (Ctx → Ctx))

/-- GetHandler of the mux mapper: lookup by identifier. -/
def getHandler (reg : Registry) (dest : String) : Option (Ctx → Ctx) :=
  match reg.find? (fun kv => kv.1 == dest) with
  | some kv => some kv.2
  | none => none

/-- Signal header constant of bridge.go line 46. -/
def bridgeDestHeader : String := "X-Easegress-Bridge-Dest"

/-- Result constant of bridge.go line 43. -/
def resultDestinationNotFound : String := "destinationNotFound"

/-- Result constant of bridge.go line 44: declared in the kind's result
list but (see theorem for C6) never returned by Handle. -/
def resultInvokeDestinationFailed : String := "invokeDestinationFailed"

/-- Outcome of one (*Bridge).Handle call: the result string, the final
context, and — when a handler was dispatched — its identifier together
with the context it was invoked with. -/
structure HandleOut where
  result : String
  ctx : Ctx
  invoked : Option (String × Ctx)

/-- Destination scan of (*Bridge).Handle, bridge.go lines 135-141:
whether some configured destination equals the signal value. -/
def scanDest (dest : String) : List String → Bool
  | [] => false
  | d :: rest => if d == dest then true else scanDest dest rest

/-- Tail of (*Bridge).Handle, bridge.go lines 150-160: look up the
chosen destination in the registry; on a miss set status 503 and return
destinationNotFound, otherwise dispatch to the handler (with the
context as it stands) and return the empty outcome. -/
def dispatch (dest : String) (reg : Registry) (ctx : Ctx) : HandleOut :=
  match getHandler reg dest with
  | none =>
    { result := resultDestinationNotFound
      ctx := { ctx with respStatus := some 503 }
      invoked := none }
  | some h =>
    { result := ""
      ctx := h ctx
      invoked := some (dest, ctx) }

/-- Handle of (*Bridge).Handle, bridge.go lines 121-161.  An empty
destination list panics before the request is read (`none`).  Otherwise:
read the signal header; when it is empty, choose the first destination
(no header mutation, no scan); when it matches a configured destination,
delete the signal header and choose it; otherwise set status 503 and
return destinationNotFound without dispatching.  The chosen destination
is then resolved and dispatched by `dispatch`. -/
def bridgeHandle (destinations : List String) (reg : Registry) (ctx : Ctx) : Option HandleOut :=
  match destinations with
  | [] => none
  | d0 :: _ =>
    let dest := Header.Get ctx.reqHeader bridgeDestHeader
    if dest == "" then
      some (dispatch d0 reg ctx)
    else if scanDest dest destinations then
      some (dispatch dest reg { ctx with reqHeader := Header.Del ctx.reqHeader bridgeDestHeader })
    else
      some
        { result := resultDestinationNotFound
          ctx := { ctx with respStatus := some 503 }
          invoked := none }

/-- Fixture: the rule of the spec's synthesis example — status 201,
header `X: v`, body `hi`, no delay. -/
def ruleMockW : Rule :=
  { Match := { Path := "", PathPrefix := "", Headers := [], MatchAllHeaders := false },
    Code := 201, Headers := [("X", "v")], Body := "hi", Delay := "", delay := 0 }

/-- Fixture: a rule whose textual delay does not parse, with a stale
nonzero parsed value that reload must overwrite. -/
def ruleBadDelay : Rule :=
  { Match := { Path := "", PathPrefix := "", Headers := [], MatchAllHeaders := false },
    Code := 200, Headers := [], Body := "", Delay := "bogus", delay := 7 }

/-- The header test of one configured header rule as a predicate. -/
def headerRuleSat (header : Header) (kv : String × StringMatch) : Bool :=
  matchOneHeader header kv.1 kv.2

/-- Whether a rule passes both the path test and the header test. -/
def ruleSat (path : String) (header : Header) (rule : Rule) : Bool :=
  matchPath path rule && matchHeader header rule

/-- Fixture: a rule matching exactly path `/a`. -/
def ruleExactA : Rule :=
  { Match := { Path := "/a", PathPrefix := "", Headers := [], MatchAllHeaders := false },
    Code := 1, Headers := [], Body := "", Delay := "", delay := 0 }

/-- Fixture: a rule with no match constraints at all. -/
def ruleCatchAll : Rule :=
  { Match := { Path := "", PathPrefix := "", Headers := [], MatchAllHeaders := false },
    Code := 2, Headers := [], Body := "", Delay := "", delay := 0 }

/-- Fixture: a string-match policy accepting exactly `b`, without
matches-when-absent. -/
def smOnlyB : StringMatch :=
  { Empty := false, policy := fun v => v == "b" }

/-- Fixture: a request header carrying `k: a` and `k: b`. -/
def hdrKab : Header := [("k", ["a", "b"])]

theorem matchHeaderLoop_true (header : Header) (l : List (String × StringMatch)) :
    matchHeaderLoop header true l = l.all (headerRuleSat header) := by
  induction l with
  | nil => rfl
  | cons kv rest ih =>
    cases hb : matchOneHeader header kv.1 kv.2 <;>
      simp [matchHeaderLoop, hb, ih, headerRuleSat]

theorem matchHeaderLoop_false (header : Header) (l : List (String × StringMatch)) :
    matchHeaderLoop header false l = l.any (headerRuleSat header) := by
  induction l with
  | nil => rfl
  | cons kv rest ih =>
    cases hb : matchOneHeader header kv.1 kv.2 <;>
      simp [matchHeaderLoop, hb, ih, headerRuleSat]

/-- C2: with a non-empty header-rule set the header test is the
conjunction of the individual header rules when `MatchAllHeaders` is
true, and their disjunction when it is false (failing when none is
satisfied); with an empty header-rule set it is vacuously true. -/
theorem matchHeader_all_any (header : Header) (rule : Rule) :
    matchHeader header rule =
      if rule.Match.Headers.isEmpty then true
      else if rule.Match.MatchAllHeaders then
        rule.Match.Headers.all (headerRuleSat header)
      else
        rule.Match.Headers.any (headerRuleSat header) := by
  unfold matchHeader
  cases h : rule.Match.Headers with
  | nil => simp [h]
  | cons kv rest =>
    cases hall : rule.Match.MatchAllHeaders <;>
      simp [h, hall, matchHeaderLoop_true, matchHeaderLoop_false]

/-- C3: one header rule against a request — no values for the name:
satisfied exactly by the `Empty` (matches-when-absent) flag; some
values and `Empty` set: unsatisfied; some values and `Empty` unset:
satisfied exactly when at least one value satisfies the policy. -/
theorem matchOneHeader_spec (header : Header) (key : String) (sm : StringMatch) :
    (Header.Values header key = [] → matchOneHeader header key sm = sm.Empty) ∧
    (Header.Values header key ≠ [] → sm.Empty = true →
      matchOneHeader header key sm = false) ∧
    (Header.Values header key ≠ [] → sm.Empty = false →
      (matchOneHeader header key sm = true ↔
        ∃ v ∈ Header.Values header key, sm.Match v = true)) := by
  refine ⟨?_, ?_, ?_⟩ <;> intro hv
  · simp [matchOneHeader, hv]
  · intro he
    cases hl : Header.Values header key with
    | nil => exact absurd hl hv
    | cons a as => simp [matchOneHeader, hl, he]
  · intro he
    cases hl : Header.Values header key with
    | nil => exact absurd hl hv
    | cons a as => simp [matchOneHeader, hl, he, List.any_eq_true]

/-- Witness for C3 at a concrete input: header `k: [a, b]`, a rule
without matches-when-absent whose policy accepts exactly `b`. -/
theorem matchOneHeader_spec_witness :
    matchOneHeader hdrKab "k" smOnlyB = true := by
  have h := (matchOneHeader_spec hdrKab "k" smOnlyB).2.2 (by decide) rfl
  exact h.mpr ⟨"b", by decide, by decide⟩

/-- C4: the path test holds exactly when the rule constrains neither
path nor prefix, or the request path equals the rule's path, or the
prefix is set and the request path starts with it; in particular a rule
with only `path="/a"` does not match request path `/a/b`. -/
theorem matchPath_spec (path : String) (rule : Rule) :
    (matchPath path rule = true ↔
      (rule.Match.Path = "" ∧ rule.Match.PathPrefix = "") ∨
      rule.Match.Path = path ∨
      (rule.Match.PathPrefix ≠ "" ∧ hasPrefix path rule.Match.PathPrefix = true)) ∧
    (∀ r : Rule, r.Match.Path = "/a" → r.Match.PathPrefix = "" →
      matchPath "/a/b" r = false) := by
  constructor
  · unfold matchPath
    split
    · next h =>
      simp only [Bool.and_eq_true, beq_iff_eq] at h
      simp [h]
    · next h =>
      split
      · next h2 =>
        simp only [beq_iff_eq] at h2
        simp [h2]
      · next h2 =>
        simp only [Bool.and_eq_true, beq_iff_eq, not_and] at h
        simp only [beq_iff_eq] at h2
        split
        · next h3 =>
          simp only [beq_iff_eq] at h3
          constructor
          · intro hf; exact absurd hf (by simp)
          · rintro (⟨hp, hpp⟩ | hp | ⟨hpp, _⟩)
            · exact absurd hpp (h hp)
            · exact absurd hp h2
            · exact absurd h3 hpp
        · next h3 =>
          simp only [beq_iff_eq] at h3
          constructor
          · intro hf; exact Or.inr (Or.inr ⟨h3, hf⟩)
          · rintro (⟨hp, hpp⟩ | hp | ⟨_, hf⟩)
            · exact absurd hpp (h hp)
            · exact absurd hp h2
            · exact hf
  · intro r hp hpre
    simp [matchPath, hp, hpre]

/-- Witness for C4 at a concrete input: a rule with only `path="/a"`
rejects request path `/a/b`. -/
theorem matchPath_spec_witness :
    matchPath "/a/b" ruleExactA = false :=
  (matchPath_spec "/a/b" ruleExactA).2 ruleExactA rfl rfl

/-- C1: the rule-selection loop returns the first rule (in declared
order) satisfying both the path and the header test — every rule
declared before it fails — and returns `none` exactly when no rule
satisfies both. -/
theorem mockMatch_first (path : String) (header : Header) (rules : List Rule) :
    (∀ r, mockMatch path header rules = some r →
      ruleSat path header r = true ∧
      ∃ i : Fin rules.length,
        rules.get i = r ∧
        ∀ r' ∈ rules.take i.val, ruleSat path header r' = false) ∧
    (mockMatch path header rules = none ↔
      ∀ r ∈ rules, ruleSat path header r = false) := by
  induction rules with
  | nil =>
    refine ⟨?_, ?_⟩
    · intro r hr; cases hr
    · simp [mockMatch]
  | cons a as ih =>
    cases hsat : ruleSat path header a with
    | true =>
      have hm : mockMatch path header (a :: as) = some a := by
        unfold ruleSat at hsat
        simp [mockMatch, hsat]
      refine ⟨?_, ?_⟩
      · intro r hr
        rw [hm] at hr
        cases hr
        exact ⟨hsat, ⟨0, Nat.succ_pos _⟩, rfl, by simp⟩
      · rw [hm]
        constructor
        · intro h; cases h
        · intro h
          exact absurd (h a (List.mem_cons_self a as)) (by simp [hsat])
    | false =>
      have hm : mockMatch path header (a :: as) = mockMatch path header as := by
        unfold ruleSat at hsat
        simp [mockMatch, hsat]
      refine ⟨?_, ?_⟩
      · intro r hr
        rw [hm] at hr
        obtain ⟨hs, i, hget, hbefore⟩ := ih.1 r hr
        refine ⟨hs, ⟨i.val + 1, Nat.succ_lt_succ i.isLt⟩, ?_, ?_⟩
        · simpa using hget
        · intro r' hr'
          simp only [List.take_succ_cons, List.mem_cons] at hr'
          rcases hr' with rfl | hr'
          · exact hsat
          · exact hbefore r' hr'
      · rw [hm, ih.2]
        constructor
        · intro h r hr
          rcases List.mem_cons.mp hr with rfl | hr
          · exact hsat
          · exact h r hr
        · intro h r hr
          exact h r (List.mem_cons_of_mem a hr)

/-- Witness for C1 at a concrete input: with two rules both matching
path `/a`, the first one is the rule returned. -/
theorem mockMatch_first_witness :
    ruleSat "/a" [] ruleExactA = true ∧
    ∃ i : Fin [ruleExactA, ruleCatchAll].length,
      [ruleExactA, ruleCatchAll].get i = ruleExactA ∧
      ∀ r' ∈ [ruleExactA, ruleCatchAll].take i.val, ruleSat "/a" [] r' = false :=
  (mockMatch_first "/a" [] [ruleExactA, ruleCatchAll]).1 ruleExactA rfl

theorem find?_map_overwrite (h : List (String × String)) (k v : String)
    (hany : h.any (fun kv => kv.1 == k) = true) :
    (h.map (fun kv => if kv.1 == k then (k, v) else kv)).find? (fun kv => kv.1 == k) =
      some (k, v) := by
  induction h with
  | nil => simp at hany
  | cons a t ih =>
    by_cases ha : a.1 = k
    · simp [ha]
    · have ht : t.any (fun kv => kv.1 == k) = true := by
        simpa [ha] using hany
      simp only [List.map_cons]
      rw [if_neg (by simp [ha]), List.find?_cons_of_neg _ (by simp [ha])]
      exact ih ht

theorem find?_map_overwrite_ne (h : List (String × String)) (k v k' : String)
    (hne : k' ≠ k) :
    (h.map (fun kv => if kv.1 == k then (k, v) else kv)).find? (fun kv => kv.1 == k') =
      h.find? (fun kv => kv.1 == k') := by
  induction h with
  | nil => rfl
  | cons a t ih =>
    by_cases ha : a.1 = k
    · simp only [List.map_cons]
      rw [if_pos (by simp [ha]),
        List.find?_cons_of_neg _
          (by simp only [beq_iff_eq]; exact fun hc => hne hc.symm),
        List.find?_cons_of_neg _
          (by simp only [beq_iff_eq, ha]; exact fun hc => hne hc.symm), ih]
    · simp only [List.map_cons]
      rw [if_neg (by simp [ha])]
      by_cases hp : a.1 = k'
      · rw [List.find?_cons_of_pos _ (by simp [hp]), List.find?_cons_of_pos _ (by simp [hp])]
      · rw [List.find?_cons_of_neg _ (by simp [hp]), List.find?_cons_of_neg _ (by simp [hp]), ih]

theorem getRespHeader_eq (h : List (String × String)) (k : String) :
    getRespHeader h k = (h.find? (fun kv => kv.1 == k)).map (fun kv => kv.2) := by
  unfold getRespHeader
  cases h.find? (fun kv => kv.1 == k) <;> rfl

theorem getRespHeader_set_self (h : List (String × String)) (k v : String) :
    getRespHeader (setRespHeader h k v) k = some v := by
  rw [getRespHeader_eq]
  unfold setRespHeader
  by_cases hany : (h.any fun kv => kv.1 == k) = true
  · rw [if_pos hany, find?_map_overwrite h k v hany]
    rfl
  · have hnone : h.find? (fun kv => kv.1 == k) = none := by
      rw [List.find?_eq_none]
      intro x hx hpx
      exact hany (List.any_eq_true.mpr ⟨x, hx, hpx⟩)
    rw [if_neg hany, List.find?_append, hnone, Option.none_or,
      List.find?_cons_of_pos _ (by simp)]
    rfl

theorem getRespHeader_set_other (h : List (String × String)) (k v k' : String)
    (hne : k' ≠ k) :
    getRespHeader (setRespHeader h k v) k' = getRespHeader h k' := by
  rw [getRespHeader_eq, getRespHeader_eq]
  unfold setRespHeader
  by_cases hany : (h.any fun kv => kv.1 == k) = true
  · rw [if_pos hany, find?_map_overwrite_ne h k v k' hne]
  · rw [if_neg hany, List.find?_append,
      List.find?_cons_of_neg _
        (by simp only [beq_iff_eq]; exact fun hc => hne hc.symm)]
    simp only [List.find?_nil, Option.or_none]

theorem foldl_set_ne (l : List (String × String)) :
    ∀ h0 : List (String × String), ∀ k : String, (∀ kv ∈ l, kv.1 ≠ k) →
      getRespHeader (l.foldl (fun h kv => setRespHeader h kv.1 kv.2) h0) k =
        getRespHeader h0 k := by
  induction l with
  | nil => intro h0 k _; rfl
  | cons a t ih =>
    intro h0 k hk
    rw [List.foldl_cons, ih _ k (fun kv hkv => hk kv (List.mem_cons_of_mem a hkv))]
    exact getRespHeader_set_other h0 a.1 a.2 k (Ne.symm (hk a (List.mem_cons_self a t)))

theorem foldl_set_mem (l : List (String × String)) :
    ∀ h0 : List (String × String), (l.map Prod.fst).Nodup →
      ∀ kv ∈ l,
        getRespHeader (l.foldl (fun h p => setRespHeader h p.1 p.2) h0) kv.1 = some kv.2 := by
  induction l with
  | nil => intro h0 _ kv hm; cases hm
  | cons a t ih =>
    intro h0 hnd kv hm
    rw [List.map_cons, List.nodup_cons] at hnd
    rw [List.foldl_cons]
    rcases List.mem_cons.mp hm with rfl | hm'
    · have hk : ∀ p ∈ t, p.1 ≠ kv.1 := by
        intro p hp hc
        exact hnd.1 (List.mem_map.mpr ⟨p, hp, hc⟩)
      rw [foldl_set_ne t _ kv.1 hk]
      exact getRespHeader_set_self h0 kv.1 kv.2
    · exact ih _ hnd.2 kv hm'

theorem mockApply_fst (rule : Rule) (resp : Response) (cancelled : Bool) :
    (mockApply rule resp cancelled).1 =
      { statusCode := some rule.Code,
        header := rule.Headers.foldl (fun h kv => setRespHeader h kv.1 kv.2) resp.header,
        body := some rule.Body } := by
  unfold mockApply
  split
  · rfl
  · split <;> rfl

theorem mockApply_snd (rule : Rule) (resp : Response) (cancelled : Bool) :
    (mockApply rule resp cancelled).2 =
      mockMutationSteps rule ++
        (if rule.delay ≤ 0 then [] else [MockStep.delayWait cancelled]) := by
  unfold mockApply
  by_cases h : rule.delay ≤ 0
  · simp [h]
  · cases cancelled <;> simp [h]

/-- C7: applying a matched rule sets the status code to the rule's
code, sets every configured header, and replaces the body; the response
is identical whether the delay elapses or the cancellation fires first
(no rollback, no error), and in the event trace every mutation comes
before the delay wait — the wait, present only for a positive delay, is
the last event. -/
theorem mockApply_spec (rule : Rule) (resp : Response) (cancelled : Bool)
    (hnd : (rule.Headers.map Prod.fst).Nodup) :
    (mockApply rule resp cancelled).1.statusCode = some rule.Code ∧
    (mockApply rule resp cancelled).1.body = some rule.Body ∧
    (∀ kv ∈ rule.Headers,
      getRespHeader (mockApply rule resp cancelled).1.header kv.1 = some kv.2) ∧
    (mockApply rule resp true).1 = (mockApply rule resp false).1 ∧
    (mockApply rule resp cancelled).2 =
      mockMutationSteps rule ++
        (if rule.delay ≤ 0 then [] else [MockStep.delayWait cancelled]) ∧
    (∀ s ∈ mockMutationSteps rule, ∀ b, s ≠ MockStep.delayWait b) := by
  refine ⟨?_, ?_, ?_, ?_, ?_, ?_⟩
  · rw [mockApply_fst]
  · rw [mockApply_fst]
  · intro kv hkv
    rw [mockApply_fst]
    exact foldl_set_mem rule.Headers resp.header hnd kv hkv
  · rw [mockApply_fst, mockApply_fst]
  · exact mockApply_snd rule resp cancelled
  · intro s hs b hcontra
    subst hcontra
    simp [mockMutationSteps] at hs

/-- Witness for C7 at a concrete input: the spec's synthesis example —
status 201, header `X: v`, body `hi`. -/
theorem mockApply_spec_witness :
    getRespHeader
      (mockApply ruleMockW { statusCode := none, header := [], body := none } false).1.header
      "X" = some "v" :=
  (mockApply_spec ruleMockW { statusCode := none, header := [], body := none } false
    (by decide)).2.2.1 ("X", "v") (by decide)

/-- C8: reload hands each rule's non-empty delay text to the duration
parser exactly once (rules with empty text are skipped and left
unchanged); a text the parser rejects silently yields zero delay —
`r.delay, _ = time.ParseDuration(r.Delay)` keeps the parser's zero
value and drops the error — so applying such a rule performs no delay
wait. -/
theorem mockReload_spec (pd : String → Option Int) (rules : List Rule) :
    ((mockReload pd rules).2 =
      rules.filterMap (fun r => if r.Delay == "" then none else some r.Delay)) ∧
    ((mockReload pd rules).1 = rules.map (fun r => (reloadRule pd r).1)) ∧
    (∀ r : Rule, r.Delay = "" → (reloadRule pd r).1 = r) ∧
    (∀ r : Rule, ∀ d : Int, r.Delay ≠ "" → pd r.Delay = some d →
      (reloadRule pd r).1.delay = d) ∧
    (∀ r : Rule, r.Delay ≠ "" → pd r.Delay = none →
      (reloadRule pd r).1.delay = 0 ∧
      ∀ resp cancelled,
        (mockApply (reloadRule pd r).1 resp cancelled).2 =
          mockMutationSteps (reloadRule pd r).1) := by
  refine ⟨?_, ?_, ?_, ?_, ?_⟩
  · induction rules with
    | nil => rfl
    | cons r rest ih =>
      by_cases h : r.Delay = ""
      · simp [mockReload, reloadRule, h, ih]
      · simp [mockReload, reloadRule, h, ih]
  · induction rules with
    | nil => rfl
    | cons r rest ih => simp [mockReload, ih]
  · intro r h
    simp [reloadRule, h]
  · intro r d hne hpd
    simp [reloadRule, hne, parseDelay, hpd]
  · intro r hne hpd
    have hz : (reloadRule pd r).1.delay = 0 := by
      simp [reloadRule, hne, parseDelay, hpd]
    refine ⟨hz, ?_⟩
    intro resp cancelled
    rw [mockApply_snd, hz]
    simp

/-- Witness for C8 at a concrete input: with a parser rejecting every
text, reloading a rule whose delay text is `bogus` (and whose stale
parsed delay is 7) yields a parsed delay of zero. -/
theorem mockReload_spec_witness :
    (reloadRule (fun _ => none) ruleBadDelay).1.delay = 0 :=
  ((mockReload_spec (fun _ => none) [ruleBadDelay]).2.2.2.2 ruleBadDelay
    (by decide) rfl).1

theorem scanDest_mem (dest : String) (l : List String) :
    scanDest dest l = true ↔ dest ∈ l := by
  induction l with
  | nil => simp [scanDest]
  | cons d t ih =>
    unfold scanDest
    by_cases h : d = dest
    · simp [h]
    · rw [if_neg (by simp [h]), ih]
      constructor
      · exact fun hm => List.mem_cons_of_mem d hm
      · intro hm
        rcases List.mem_cons.mp hm with heq | hm'
        · exact absurd heq.symm h
        · exact hm'

theorem dispatch_result (dest : String) (reg : Registry) (ctx : Ctx) :
    (dispatch dest reg ctx).result = "" ∨
      (dispatch dest reg ctx).result = resultDestinationNotFound := by
  unfold dispatch
  cases getHandler reg dest <;> simp

/-- C5: with non-empty destinations, an absent (empty) signal header
selects the first destination with the request header untouched; a
signal value equal to a configured destination is selected, the signal
header is deleted from the request, the registry's handler for it (when
it exists) is invoked with that same context, and the outcome is the
empty string. -/
theorem bridgeHandle_route (destinations : List String) (reg : Registry) (ctx : Ctx)
    (d0 : String) (rest : List String) (hd : destinations = d0 :: rest) :
    (Header.Get ctx.reqHeader bridgeDestHeader = "" →
      bridgeHandle destinations reg ctx = some (dispatch d0 reg ctx)) ∧
    (∀ dest, Header.Get ctx.reqHeader bridgeDestHeader = dest → dest ≠ "" →
      dest ∈ destinations →
      ∀ h, getHandler reg dest = some h →
        bridgeHandle destinations reg ctx =
          some { result := ""
                 ctx := h { ctx with reqHeader := Header.Del ctx.reqHeader bridgeDestHeader }
                 invoked :=
                   some (dest,
                     { ctx with reqHeader := Header.Del ctx.reqHeader bridgeDestHeader }) }) := by
  subst hd
  constructor
  · intro hget
    simp [bridgeHandle, hget]
  · intro dest hget hne hmem h hh
    have hscan : scanDest dest (d0 :: rest) = true := (scanDest_mem dest _).mpr hmem
    simp [bridgeHandle, hget, hne, hscan, dispatch, hh]

/-- Witness for C5 at a concrete input: destinations `[a, b]`, signal
header `b`, a registry holding the identity handler under `b` — the
header is consumed, the handler runs, the outcome is empty. -/
theorem bridgeHandle_route_witness :
    bridgeHandle ["a", "b"] [("b", fun c => c)]
        { reqHeader := [(bridgeDestHeader, ["b"])], respStatus := none } =
      some { result := ""
             ctx := { reqHeader := [], respStatus := none }
             invoked := some ("b", { reqHeader := [], respStatus := none }) } :=
  (bridgeHandle_route ["a", "b"] [("b", fun c => c)]
      { reqHeader := [(bridgeDestHeader, ["b"])], respStatus := none }
      "a" ["b"] rfl).2 "b" rfl (by decide) (by decide) (fun c => c) rfl

/-- C6: with non-empty destinations, a non-empty signal value matching
no configured destination, or a chosen destination missing from the
registry, both set the response status to 503, dispatch nothing and
return destinationNotFound — indistinguishable in outcome — and no
input makes Handle return invokeDestinationFailed. -/
theorem bridgeHandle_notFound (destinations : List String) (reg : Registry) (ctx : Ctx)
    (d0 : String) (rest : List String) (hd : destinations = d0 :: rest) :
    (∀ dest, Header.Get ctx.reqHeader bridgeDestHeader = dest → dest ≠ "" →
      scanDest dest destinations = false →
      bridgeHandle destinations reg ctx =
        some { result := resultDestinationNotFound
               ctx := { ctx with respStatus := some 503 }
               invoked := none }) ∧
    (Header.Get ctx.reqHeader bridgeDestHeader = "" → getHandler reg d0 = none →
      bridgeHandle destinations reg ctx =
        some { result := resultDestinationNotFound
               ctx := { ctx with respStatus := some 503 }
               invoked := none }) ∧
    (∀ dest, Header.Get ctx.reqHeader bridgeDestHeader = dest → dest ≠ "" →
      dest ∈ destinations → getHandler reg dest = none →
      bridgeHandle destinations reg ctx =
        some { result := resultDestinationNotFound
               ctx := { ctx with
                        reqHeader := Header.Del ctx.reqHeader bridgeDestHeader
                        respStatus := some 503 }
               invoked := none }) ∧
    (∀ out, bridgeHandle destinations reg ctx = some out →
      out.result ≠ resultInvokeDestinationFailed) := by
  subst hd
  refine ⟨?_, ?_, ?_, ?_⟩
  · intro dest hget hne hscan
    simp [bridgeHandle, hget, hne, hscan]
  · intro hget hh
    simp [bridgeHandle, hget, dispatch, hh]
  · intro dest hget hne hmem hh
    have hscan : scanDest dest (d0 :: rest) = true := (scanDest_mem dest _).mpr hmem
    simp [bridgeHandle, hget, hne, hscan, dispatch, hh]
  · intro out hout
    have hres : out.result = "" ∨ out.result = resultDestinationNotFound := by
      simp only [bridgeHandle] at hout
      split at hout
      · rcases Option.some.inj hout with rfl
        exact dispatch_result _ _ _
      · split at hout
        · rcases Option.some.inj hout with rfl
          exact dispatch_result _ _ _
        · rcases Option.some.inj hout with rfl
          exact Or.inr rfl
    rcases hres with h | h <;> rw [h] <;> decide

/-- Witness for C6 at a concrete input: signal `c` with destinations
`[a, b]` — no dispatch, status 503, outcome destinationNotFound. -/
theorem bridgeHandle_notFound_witness :
    bridgeHandle ["a", "b"] []
        { reqHeader := [(bridgeDestHeader, ["c"])], respStatus := none } =
      some { result := resultDestinationNotFound
             ctx := { reqHeader := [(bridgeDestHeader, ["c"])], respStatus := some 503 }
             invoked := none } :=
  (bridgeHandle_notFound ["a", "b"] []
      { reqHeader := [(bridgeDestHeader, ["c"])], respStatus := none }
      "a" ["b"] rfl).1 "c" rfl (by decide) (by decide)

/-- C9: an empty destination list is a request-time fatal fault —
Handle aborts (no outcome) before reading the request — and whenever
the non-emptiness precondition holds the fatal branch is unreachable:
Handle always produces one of the normal outcomes (empty or
destinationNotFound). -/
theorem bridgeHandle_empty_fatal (reg : Registry) (ctx : Ctx) :
    bridgeHandle [] reg ctx = none ∧
    (∀ destinations : List String, destinations ≠ [] →
      ∃ out, bridgeHandle destinations reg ctx = some out ∧
        (out.result = "" ∨ out.result = resultDestinationNotFound)) := by
  constructor
  · rfl
  · intro destinations hne
    cases destinations with
    | nil => exact absurd rfl hne
    | cons d0 rest =>
      by_cases h1 : Header.Get ctx.reqHeader bridgeDestHeader = ""
      · exact ⟨dispatch d0 reg ctx, by simp [bridgeHandle, h1], dispatch_result _ _ _⟩
      · by_cases h2 : scanDest (Header.Get ctx.reqHeader bridgeDestHeader) (d0 :: rest) = true
        · refine ⟨dispatch (Header.Get ctx.reqHeader bridgeDestHeader) reg
            { ctx with reqHeader := Header.Del ctx.reqHeader bridgeDestHeader },
            by simp [bridgeHandle, h1, h2], dispatch_result _ _ _⟩
        · refine ⟨{ result := resultDestinationNotFound
                    ctx := { ctx with respStatus := some 503 }
                    invoked := none },
            by simp [bridgeHandle, h1, h2], Or.inr rfl⟩

/-- Witness for C9 at a concrete input: Handle with no destinations
aborts; with destinations `[a]` it produces a normal outcome. -/
theorem bridgeHandle_empty_fatal_witness :
    bridgeHandle [] [] { reqHeader := [], respStatus := none } = none :=
  (bridgeHandle_empty_fatal [] { reqHeader := [], respStatus := none }).1

/-- C10: when the signal header reads as the empty string — Go
`Header.Get` returns the empty string both when the header is absent
and when it is present with an empty first value — Handle behaves as if
the header were absent: the first destination is chosen, the
destination list is not scanned, the header is not deleted (the context
given to `dispatch` is the original one), and the value-matching step
can never produce destinationNotFound: with the first destination in
the registry the outcome is empty even when the empty string is not a
configured destination. -/
theorem bridgeHandle_emptyval (destinations : List String) (reg : Registry) (ctx : Ctx)
    (d0 : String) (rest : List String) (hd : destinations = d0 :: rest)
    (hempty : Header.Get ctx.reqHeader bridgeDestHeader = "") :
    bridgeHandle destinations reg ctx = some (dispatch d0 reg ctx) ∧
    (∀ h, getHandler reg d0 = some h →
      bridgeHandle destinations reg ctx =
        some { result := "", ctx := h ctx, invoked := some (d0, ctx) }) := by
  subst hd
  constructor
  · simp [bridgeHandle, hempty]
  · intro h hh
    simp [bridgeHandle, hempty, dispatch, hh]

/-- Witness for C10 at a concrete input: the signal header is present
with the empty value, which is not a configured destination; the first
destination `a` is chosen, the header is kept, the outcome is empty. -/
theorem bridgeHandle_emptyval_witness :
    bridgeHandle ["a", "b"] [("a", fun c => c)]
        { reqHeader := [(bridgeDestHeader, [""])], respStatus := none } =
      some { result := ""
             ctx := { reqHeader := [(bridgeDestHeader, [""])], respStatus := none }
             invoked :=
               some ("a", { reqHeader := [(bridgeDestHeader, [""])], respStatus := none }) } :=
  (bridgeHandle_emptyval ["a", "b"] [("a", fun c => c)]
      { reqHeader := [(bridgeDestHeader, [""])], respStatus := none }
      "a" ["b"] rfl rfl).2 (fun c => c) rfl

end Easegress
